import Mathlib

/-!
Verification development for the vtysh command-table generator
(`python/xref2vtysh.py` in the FRR repository).

The development shallowly embeds the deduplication / ownership-resolution /
deterministic-emission engine of the script:

* `normalize_cmd`      — `CommandEntry.normalize_cmd`
* `get_daemons`        — `CommandEntry._get_daemons`
* `CommandEntry.mkEntry` — `CommandEntry.__init__` (fallible: the script
  indexes `doclines[-1]`, which raises `IndexError` on empty help text;
  this is modelled with `Except PyError`)
* `CommandEntry.merge` — `CommandEntry.merge`
* `LoadState` / `CommandEntry.process` / `CommandEntry.load` — the load
  phase; Python object aliasing (node tables and the global registry hold
  references to shared mutable entries) is modelled by a pool of entries
  indexed by position, with node tables and the registry storing indices
* `output_defs`, `output_install`, `runOutput` — the emission passes

Strings are modelled with Lean `String` (a wrapper around `List Char`);
Python string order is code-point lexicographic, modelled by `charsLt`.
`os.path.relpath(defun.file, frr_top_src)` happens at the I/O boundary: the
model takes `defun_file` as the already-relativized path.  Path splitting
for the origin strings occurring in the database (plain relative paths such
as `"zebra/zebra"`, `"mgmtd/libmgmt_be_nb.la"`) is modelled by splitting on
the slash character.
-/

namespace Xref2Vtysh

/-- Error raised by the Python runtime; the only uncaught exception reachable
in the embedded fragment is an out-of-range list/tuple index. -/
inductive PyError where
  | indexError
deriving DecidableEq, Repr

/-- Whitespace characters matched by Python `str.strip` and the regex
class backslash-s for ASCII input. -/
def isWs (c : Char) : Bool :=
  c = ' ' || c = '\t' || c = '\n' || c = '\x0d' || c = '\x0b' || c = '\x0c'

/-- ASCII lowercase letter, the class a-z of the placeholder regex. -/
def isLowerAZ (c : Char) : Bool :=
  'a' ≤ c && c ≤ 'z'

/-- Continuation character of a placeholder: the class a-z0-9_ . -/
def isVarChar (c : Char) : Bool :=
  isLowerAZ c || ('0' ≤ c && c ≤ '9') || c = '_'

/-- Python `str.strip`: drop leading and trailing whitespace. -/
def stripChars (l : List Char) : List Char :=
  ((l.dropWhile isWs).reverse.dropWhile isWs).reverse

/-- One pass of the substitution of the regex matching one-or-more
whitespace by a single space; `prevWs` records whether the previous
character was part of a whitespace run. -/
def collapseWsAux : Bool → List Char → List Char
  | _, [] => []
  | prevWs, c :: rest =>
    if isWs c then
      if prevWs then collapseWsAux true rest
      else ' ' :: collapseWsAux true rest
    else c :: collapseWsAux false rest

/-- Substitution of every whitespace run by a single space
(`re_collapse_ws.sub(" ", cmd)`). -/
def collapseWs (l : List Char) : List Char :=
  collapseWsAux false l

/-- Scanner state for the placeholder-removal substitution. -/
inductive RvState where
  | scan
  | afterDollar
  | skipping

/-- Substitution deleting every match of dollar-sign followed by a
lowercase letter followed by characters in the class a-z0-9_
(`re_remove_varnames.sub("", cmd)`).  `afterDollar` means a dollar sign
has been read and not yet emitted; `skipping` consumes the matched
identifier tail. -/
def rvGo : RvState → List Char → List Char
  | .scan, [] => []
  | .afterDollar, [] => ['$']
  | .skipping, [] => []
  | .scan, c :: rest =>
      if c = '$' then rvGo .afterDollar rest else c :: rvGo .scan rest
  | .afterDollar, c :: rest =>
      if isLowerAZ c then rvGo .skipping rest
      else if c = '$' then '$' :: rvGo .afterDollar rest
      else '$' :: c :: rvGo .scan rest
  | .skipping, c :: rest =>
      if isVarChar c then rvGo .skipping rest
      else if c = '$' then rvGo .afterDollar rest
      else c :: rvGo .scan rest

/-- Deletion of variable-capture placeholders from a command string. -/
def removeVarnames (l : List Char) : List Char :=
  rvGo .scan l

/-- Embedding of `CommandEntry.normalize_cmd`: strip, collapse whitespace
runs, then delete placeholder tokens. -/
def normalize_cmd (cmd : String) : String :=
  String.mk (removeVarnames (collapseWs (stripChars cmd.data)))

/-- Python `str.splitlines(keepends=True)`, for text whose only line
terminator is the newline character (true of the help strings handled by
the script).  `cur` holds the reversed prefix of the current line. -/
def splitlinesAux (cur : List Char) : List Char → List String
  | [] => if cur.isEmpty then [] else [String.mk cur.reverse]
  | c :: rest =>
    if c = '\n' then String.mk (cur.reverse ++ ['\n']) :: splitlinesAux [] rest
    else splitlinesAux (c :: cur) rest

/-- Split text into lines, keeping the newline terminators. -/
def splitlinesKeepends (s : String) : List String :=
  splitlinesAux [] s.data

/-- Components of a relative path, splitting on the slash; empty components
are dropped (`pathlib` normalizes repeated slashes away). -/
def pathParts (s : String) : List String :=
  (s.data.splitOn '/').filter (fun c => ¬ c.isEmpty) |>.map String.mk

/-- Final component of a path, `pathlib.Path(p).name`. -/
def pathName (s : String) : String :=
  (pathParts s).getLastD ""

/-- Second-to-last component of a path, `pathlib.Path(p).parts[-2]`;
`none` models the `IndexError` Python raises when fewer than two
components exist. -/
def partsSecondLast (s : String) : Option String :=
  (pathParts s).dropLast.getLast?

/-- Python `str.upper` for the ASCII strings handled here. -/
def strUpper (s : String) : String :=
  String.mk (s.data.map Char.toUpper)

/-- Check that `pat` is a prefix of `l`. -/
def listIsPrefixOf : List Char → List Char → Bool
  | [], _ => true
  | _ :: _, [] => false
  | a :: as, b :: bs => a = b && listIsPrefixOf as bs

/-- Check that `pat` occurs contiguously inside `l`. -/
def listIsInfixOf (pat : List Char) : List Char → Bool
  | [] => pat.isEmpty
  | b :: bs => listIsPrefixOf pat (b :: bs) || listIsInfixOf pat bs

/-- Python substring containment `pat in s`. -/
def strContainsSub (s pat : String) : Bool :=
  listIsInfixOf pat.data s.data

/-- The static file-to-daemon-expression table `daemon_flags`. -/
def daemon_flags : List (String × String) :=
  [ ("lib/agentx.c", "VTYSH_ISISD|VTYSH_RIPD|VTYSH_OSPFD|VTYSH_OSPF6D|VTYSH_BGPD|VTYSH_ZEBRA"),
    ("lib/filter.c", "VTYSH_ACL"),
    ("lib/filter_cli.c", "VTYSH_ACL"),
    ("lib/if.c", "VTYSH_INTERFACE"),
    ("lib/keychain.c", "VTYSH_RIPD|VTYSH_EIGRPD|VTYSH_OSPF6D"),
    ("lib/lib_vty.c", "VTYSH_ALL"),
    ("lib/log_vty.c", "VTYSH_ALL"),
    ("lib/nexthop_group.c", "VTYSH_NH_GROUP"),
    ("lib/resolver.c", "VTYSH_NHRPD|VTYSH_BGPD"),
    ("lib/routemap.c", "VTYSH_RMAP"),
    ("lib/routemap_cli.c", "VTYSH_RMAP"),
    ("lib/spf_backoff.c", "VTYSH_ISISD"),
    ("lib/event.c", "VTYSH_ALL"),
    ("lib/vrf.c", "VTYSH_VRF"),
    ("lib/vty.c", "VTYSH_ALL") ]

/-- First value bound to `k` in an association list (Python dict lookup;
the dicts built by the script never repeat keys). -/
def assocLookup (l : List (String × α)) (k : String) : Option α :=
  (l.find? (fun p => p.1 = k)).map Prod.snd

/-- Embedding of `CommandEntry._get_daemons`.  Returns the set of
daemon-flag-expressions owning the command (as a duplicate-free list;
Python uses a `set`), the empty list meaning the command is dropped, or
`indexError` where Python would raise (origin with a dot in its final
component but only one component in total). -/
def get_daemons (origin name defun_file : String) : Except PyError (List String) :=
  if pathName origin = "vtysh" then .ok []
  else
    match (pathParts defun_file).head? with
    | none => .error .indexError
    | some part0 =>
      if part0 ≠ "lib" then
        if ¬ strContainsSub (pathName origin) "." then
          .ok ["VTYSH_" ++ strUpper (pathName origin)]
        else
          match partsSecondLast origin with
          | none => .error .indexError
          | some dir => .ok ["VTYSH_" ++ strUpper dir]
      else
        match assocLookup daemon_flags defun_file with
        | some fl => .ok [fl]
        | none =>
          let v6_cmd := strContainsSub name "ipv6"
          if defun_file = "lib/plist.c" then
            if v6_cmd then
              .ok ["VTYSH_RIPNGD|VTYSH_OSPF6D|VTYSH_BGPD|VTYSH_ZEBRA|VTYSH_PIM6D|VTYSH_BABELD|VTYSH_ISISD|VTYSH_FABRICD"]
            else
              .ok ["VTYSH_RIPD|VTYSH_OSPFD|VTYSH_BGPD|VTYSH_ZEBRA|VTYSH_PIMD|VTYSH_EIGRPD|VTYSH_BABELD|VTYSH_ISISD|VTYSH_FABRICD"]
          else if defun_file = "lib/if_rmap.c" then
            if v6_cmd then .ok ["VTYSH_RIPNGD"] else .ok ["VTYSH_RIPD"]
          else .ok []

/-- Strict code-point lexicographic order on character lists: the order
Python uses to compare strings. -/
def charsLt : List Char → List Char → Bool
  | [], [] => false
  | [], _ :: _ => true
  | _ :: _, [] => false
  | a :: as, b :: bs =>
    if a < b then true
    else if b < a then false
    else charsLt as bs

/-- Python string comparison `a < b`. -/
def strLtB (a b : String) : Bool :=
  charsLt a.data b.data

/-- Non-strict counterpart of `strLtB`, the relation the stable sorts at
emission time order by. -/
def strLe (a b : String) : Prop :=
  strLtB b a = false

instance : DecidableRel strLe := fun _ _ => decEq _ _

/-- Input record for one (command name, origin) pair of the database:
fields `string`, `doc`, `attrs`, `defun.file` (already relative to the
source root), `defun.line`, and the list of CLI node ids from `nodes`. -/
structure CommandSpec where
  string : String
  doc : String
  attrs : List String
  defun_file : String
  defun_line : Nat
  nodes : List Nat
deriving DecidableEq, Repr

/-- One diagnostic produced by `warn_loc`: location of the entry whose
`warn_loc` ran, the command name, the optional node name, and the message
text. -/
structure Warning where
  file : String
  line : Nat
  cmdname : String
  nodename : Option String
  msg : String
deriving DecidableEq, Repr

/-- Embedding of the `CommandEntry` object state.  `registered` is the
flag `register` uses to append to the global list exactly once. -/
structure CommandEntry where
  origin : String
  name : String
  spec : CommandSpec
  cmd : String
  cmd_normalized : String
  hidden : Bool
  daemons : List String
  doclines : List String
  registered : Bool
deriving DecidableEq, Repr

namespace CommandEntry

/-- Diagnostic issued through `self.warn_loc(msg, nodename)`. -/
def warnLoc (e : CommandEntry) (msg : String) (nodename : Option String) : Warning :=
  ⟨e.spec.defun_file, e.spec.defun_line, e.name, nodename, msg⟩

/-- Embedding of `CommandEntry.__init__`.  The constructor indexes
`doclines[-1]`, raising `IndexError` when the help text is empty; the
daemon resolution can also raise (see `get_daemons`).  On success it
returns the entry together with the diagnostics emitted (the
missing-newline docstring warning). -/
def mkEntry (origin name : String) (spec : CommandSpec) :
    Except PyError (CommandEntry × List Warning) :=
  let cmd := spec.string
  let cmdNorm := normalize_cmd cmd
  let hidden := "hidden" ∈ spec.attrs
  match get_daemons origin name spec.defun_file with
  | .error err => .error err
  | .ok daemons =>
    let doclines := splitlinesKeepends spec.doc
    match doclines.getLast? with
    | none => .error .indexError
    | some lastLine =>
      let e : CommandEntry :=
        { origin := origin, name := name, spec := spec, cmd := cmd,
          cmd_normalized := cmdNorm, hidden := hidden, daemons := daemons,
          doclines := doclines, registered := false }
      let ws :=
        if lastLine.data.getLast? = some '\n' then []
        else [e.warnLoc "docstring does not end with \\n" none]
      .ok (e, ws)

/-- Python `repr` of a string, for the tame strings occurring in warning
messages (no quotes, backslashes or control characters). -/
def pyRepr (s : String) : String :=
  "'" ++ s ++ "'"

/-- The deterministic identifier tie-break of `merge`:
`min([self.name, other.name], key=lambda i: (len(i), i))`.  Python `min`
keeps the first element on ties. -/
def mergeName (selfName otherName : String) : String :=
  if otherName.data.length < selfName.data.length then otherName
  else if otherName.data.length = selfName.data.length ∧ strLtB otherName selfName = true then
    otherName
  else selfName

/-- Comparison of identifiers by the sort key pair
(text length, lexicographic order): `nameKeyLe a b` states that `a`
sorts no later than `b`. -/
def nameKeyLe (a b : String) : Prop :=
  a.data.length < b.data.length ∨ (a.data.length = b.data.length ∧ strLtB b a = false)

/-- Python set update: add each element of `b` not already present. -/
def setUnion (a b : List String) : List String :=
  b.foldl (fun acc x => if x ∈ acc then acc else acc ++ [x]) a

/-- Embedding of `CommandEntry.merge`: `self` absorbs `other`, which is
discarded.  Returns the surviving entry and the diagnostics emitted.
The line-diff of differing help texts is presentation written straight to
the error stream without `warn_loc` and is not modelled. -/
def merge (self other : CommandEntry) (nodename : String) :
    CommandEntry × List Warning :=
  let wsCmd :=
    if self.cmd_normalized ≠ other.cmd_normalized then
      [self.warnLoc ("command definition mismatch, first definied as:\n" ++ pyRepr self.cmd)
        (some nodename),
       other.warnLoc ("later defined as:\n" ++ pyRepr other.cmd) (some nodename)]
    else []
  let wsDoc :=
    if self.spec.doc ≠ other.spec.doc then
      [self.warnLoc "help string mismatch, first defined here (-)" (some nodename),
       other.warnLoc ("later defined here (+)\nnote: both commands define "
          ++ pyRepr self.cmd ++ " in same node (" ++ nodename ++ ")") (some nodename)]
    else []
  let wsHidden :=
    if self.hidden ≠ other.hidden then
      [self.warnLoc ("hidden flag mismatch, first " ++ (if self.hidden then "True" else "False")
          ++ " here") (some nodename),
       other.warnLoc ("later " ++ (if other.hidden then "True" else "False")
          ++ " here (+)\nnote: both commands define " ++ pyRepr self.cmd
          ++ " in same node (" ++ nodename ++ ")") (some nodename)]
    else []
  ({ self with
      name := mergeName self.name other.name,
      daemons := setUnion self.daemons other.daemons },
   wsCmd ++ wsDoc ++ wsHidden)

end CommandEntry

/-- Embedding of `c_escape`: escape backslash, double quote and newline
for C source output. -/
def c_escape (s : String) : String :=
  String.mk (s.data.foldr
    (fun c acc =>
      if c = '\\' then '\\' :: '\\' :: acc
      else if c = '"' then '\\' :: '"' :: acc
      else if c = '\n' then '\\' :: 'n' :: acc
      else c :: acc) [])

/-- Python `sep.join(parts)`. -/
def strJoinSep (sep : String) : List String → String
  | [] => ""
  | [x] => x
  | x :: y :: rest => x ++ sep ++ strJoinSep sep (y :: rest)

/-- Split a daemon-flag-expression on the vertical-bar separator
(Python `daemon.split("|")`). -/
def splitBar (s : String) : List String :=
  (s.data.splitOn '|').map String.mk

/-- Tokens of all daemon-flag-expressions of an entry, deduplicated in
first-occurrence order (Python accumulates them into a `set`). -/
def allTokens (ds : List String) : List String :=
  ds.foldl (fun acc d => CommandEntry.setUnion acc (splitBar d)) []

/-- Stable ascending sort by a string key: Python `sorted(l, key=...)`. -/
def sortByKey (key : α → String) (l : List α) : List α :=
  l.insertionSort (fun a b => strLe (key a) (key b))

/-- Embedding of `CommandEntry.get_def`: the emitted definition record of
one entry. -/
def CommandEntry.get_def (e : CommandEntry) : String :=
  let doc := strJoinSep "\n" (e.doclines.map (fun line => "\t\"" ++ c_escape line ++ "\""))
  let defsh := if e.hidden then "DEFSH_HIDDEN" else "DEFSH"
  let daemon_str := strJoinSep "|" (sortByKey id (allTokens e.daemons))
  "\n" ++ defsh ++ " (" ++ daemon_str ++ ", " ++ e.name ++ "_vtysh,\n\t\""
    ++ c_escape e.cmd ++ "\",\n" ++ doc ++ ")\n"

/-- State threaded through the load phase.  `pool` holds every
`CommandEntry` object created and kept alive, identified by its position;
`nodes` is the `NodeDict` (node id to per-node mapping from normalized key
to entry reference); `all_defs` is the global registry of entry
references; `warns` collects every diagnostic (`warn_counter` is its
length). -/
structure LoadState where
  pool : List CommandEntry
  nodes : List (Nat × List (String × Nat))
  all_defs : List Nat
  warns : List Warning
deriving DecidableEq, Repr

instance {ε α : Type} [DecidableEq ε] [DecidableEq α] : DecidableEq (Except ε α) := fun x y =>
  match x, y with
  | .ok a, .ok b =>
    if h : a = b then isTrue (by rw [h]) else isFalse (fun hc => h (by injection hc))
  | .error a, .error b =>
    if h : a = b then isTrue (by rw [h]) else isFalse (fun hc => h (by injection hc))
  | .ok _, .error _ => isFalse (fun hc => Except.noConfusion hc)
  | .error _, .ok _ => isFalse (fun hc => Except.noConfusion hc)

/-- The state at the start of `load`. -/
def initState : LoadState := ⟨[], [], [], []⟩

/-- Lookup of a node table, `nodes[nodeid]` on the `defaultdict`
(an absent node behaves as an empty table). -/
def nodeTable (st : LoadState) (nodeid : Nat) : List (String × Nat) :=
  ((st.nodes.find? (fun p => p.1 = nodeid)).map Prod.snd).getD []

/-- Store back a node table, keeping the insertion position of the node
(Python dict update semantics; a new node is appended). -/
def setNodeTable (st : LoadState) (nodeid : Nat) (tbl : List (String × Nat)) : LoadState :=
  if (st.nodes.find? (fun p => p.1 = nodeid)).isSome then
    { st with nodes := st.nodes.map (fun p => if p.1 = nodeid then (p.1, tbl) else p) }
  else
    { st with nodes := st.nodes ++ [(nodeid, tbl)] }

/-- Symbolic name of a CLI node: `NodeDict.nodename`, with the decimal
form as fallback.  The id-to-name mapping comes from the external
`command.h` parse and is a parameter of the model. -/
def nodenameOf (nn : List (Nat × String)) (nodeid : Nat) : String :=
  (((nn.find? (fun p => p.1 = nodeid)).map Prod.snd)).getD (toString nodeid)

/-- Embedding of `CommandEntry.register` applied to the pool entry at
index `i`: append it to the global registry the first time only. -/
def LoadState.registerId (st : LoadState) (i : Nat) : LoadState :=
  match st.pool.get? i with
  | none => st
  | some e =>
    if e.registered then st
    else { st with
            pool := st.pool.set i { e with registered := true },
            all_defs := st.all_defs ++ [i] }

/-- One iteration of the `for nodedata in spec.get("nodes", [])` loop of
`process`: insert the entry reference `eid` under its normalized key, or
merge it into the entry already present. -/
def processNode (nn : List (Nat × String)) (st : LoadState) (eid : Nat) (key : String)
    (nodeid : Nat) : LoadState :=
  match assocLookup (nodeTable st nodeid) key with
  | none =>
    (setNodeTable st nodeid (nodeTable st nodeid ++ [(key, eid)])).registerId eid
  | some tid =>
    match st.pool.get? tid, st.pool.get? eid with
    | some target, some fresh =>
      let m := CommandEntry.merge target fresh (nodenameOf nn nodeid)
      { st with pool := st.pool.set tid m.1, warns := st.warns ++ m.2 }
    | _, _ => st

/-- Embedding of `CommandEntry.process`.  The entry index used while
inserting into node tables is `st.pool.length`, the position at which the
freshly constructed entry is appended. -/
def CommandEntry.process (nn : List (Nat × String)) (st : LoadState)
    (name origin : String) (spec : CommandSpec) : Except PyError LoadState :=
  if "nosh" ∈ spec.attrs then .ok st
  else if origin = "vtysh/vtysh" then .ok st
  else
    match CommandEntry.mkEntry origin
        (if origin = "isisd/fabricd" then "fabricd_" ++ name else name) spec with
    | .error err => .error err
    | .ok (entry, ws) =>
      if entry.daemons.isEmpty then .ok { st with warns := st.warns ++ ws }
      else
        .ok (spec.nodes.foldl
          (fun s nodeid => processNode nn s st.pool.length entry.cmd_normalized nodeid)
          { st with pool := st.pool ++ [entry], warns := st.warns ++ ws })

/-- The designated management-backend origin. -/
def mgmtname : String := "mgmtd/libmgmt_be_nb.la"

/-- Process every origin of one command name in presentation order. -/
def processOrigins (nn : List (Nat × String)) (st : LoadState) (name : String)
    (origins : List (String × CommandSpec)) : Except PyError LoadState :=
  origins.foldl (fun acc p => acc.bind (fun s => CommandEntry.process nn s name p.1 p.2)) (.ok st)

/-- One iteration of the `for cmd_name, origins in xref` loop of `load`:
when the management backend published a variant of this command name
tagged `yang`, process only that spec; otherwise process every origin. -/
def loadItem (nn : List (Nat × String)) (st : LoadState)
    (item : String × List (String × CommandSpec)) : Except PyError LoadState :=
  match assocLookup item.2 mgmtname with
  | some mspec =>
    if "yang" ∈ mspec.attrs then CommandEntry.process nn st item.1 mgmtname mspec
    else processOrigins nn st item.1 item.2
  | none => processOrigins nn st item.1 item.2

/-- Embedding of `CommandEntry.load`: fold the `cli` member of the input
document (command name to origin-to-spec mapping, both in presentation
order) through `loadItem`. -/
def load (nn : List (Nat × String)) (xref : List (String × List (String × CommandSpec))) :
    Except PyError LoadState :=
  xref.foldl (fun acc item => acc.bind (fun s => loadItem nn s item)) (.ok initState)

/-- Entries of the global registry, in registration order. -/
def defsEntries (st : LoadState) : List CommandEntry :=
  st.all_defs.filterMap (fun i => st.pool.get? i)

/-- Embedding of `CommandEntry.output_defs`: the definition pass, sorted
by canonical identifier. -/
def output_defs (st : LoadState) : String :=
  String.join ((sortByKey CommandEntry.name (defsEntries st)).map CommandEntry.get_def)

/-- Embedding of `CommandEntry.output_install`: the installation pass,
nodes sorted by symbolic name (Python sorts the (name, table) pairs,
which compares by name for distinct names), entries within a node sorted
by canonical identifier. -/
def output_install (nn : List (Nat × String)) (st : LoadState) : String :=
  let body := (sortByKey Prod.fst
      (st.nodes.map (fun p => (nodenameOf nn p.1, p.2)))).map
    (fun p => String.join
      ((sortByKey CommandEntry.name (p.2.filterMap (fun kv => st.pool.get? kv.2))).map
        (fun e => "\tinstall_element(" ++ p.1 ++ ", &" ++ e.name ++ "_vtysh);\n")))
  "\nvoid vtysh_init_cmd(void)\n\x7b\n" ++ String.join body ++ "\x7d\n"

/-- The fixed preamble `vtysh_cmd_head`. -/
def vtysh_cmd_head : String :=
  "/* autogenerated file, DO NOT EDIT! */\n#include <zebra.h>\n\n#include \"command.h\"\n#include \"linklist.h\"\n\n#include \"vtysh/vtysh.h\"\n"

/-- Embedding of `CommandEntry.run`: the full load-then-emit sequence,
producing the complete output text (or the uncaught exception). -/
def runOutput (nn : List (Nat × String)) (xref : List (String × List (String × CommandSpec))) :
    Except PyError String :=
  (load nn xref).map (fun st => vtysh_cmd_head ++ output_defs st ++ output_install nn st)

/-! Concrete inputs used to evaluate the model on closed instances. -/

/-- Placeholder entry used by the `Except` extractors below. -/
def defaultEntry : CommandEntry :=
  { origin := "", name := "", spec := ⟨"", "", [], "", 0, []⟩, cmd := "",
    cmd_normalized := "", hidden := false, daemons := [], doclines := [],
    registered := false }

/-- Entry component of a successful construction. -/
def entryOf (r : Except PyError (CommandEntry × List Warning)) : CommandEntry :=
  match r with
  | .ok (e, _) => e
  | .error _ => defaultEntry

/-- State component of a successful load. -/
def stateOf (r : Except PyError LoadState) : LoadState :=
  match r with
  | .ok st => st
  | .error _ => initState

/-- Canonical identifiers of the global registry, in registration order. -/
def registryNames (r : Except PyError LoadState) : List String :=
  (defsEntries (stateOf r)).map CommandEntry.name

/-- Invariant of the load phase tying the global registry to the entry
pool: registered indices are distinct and point at entries whose
`registered` flag is set. -/
def RegInv (st : LoadState) : Prop :=
  st.all_defs.Nodup ∧
    ∀ i ∈ st.all_defs, ∃ e, st.pool.get? i = some e ∧ e.registered = true

/-- Two origins defining the same command name with raw syntax differing
only in placeholder names (so their normalized keys collide), same help
text, in the same CLI node. -/
def specFooA : CommandSpec :=
  { string := "show foo $a", doc := "Doc line\n", attrs := [],
    defun_file := "one/one_vty.c", defun_line := 10, nodes := [3] }

/-- Second colliding spec, differing from `specFooA` in raw syntax,
origin location and daemon. -/
def specFooB : CommandSpec :=
  { string := "show foo $b", doc := "Doc line\n", attrs := [],
    defun_file := "two/two_vty.c", defun_line := 20, nodes := [3] }

/-- Database presenting the two colliding origins in one order. -/
def xrefFoo : List (String × List (String × CommandSpec)) :=
  [("show_foo", [("one/one", specFooA), ("two/two", specFooB)])]

/-- The same database with the two origins presented in the other order. -/
def xrefFooSwapped : List (String × List (String × CommandSpec)) :=
  [("show_foo", [("two/two", specFooB), ("one/one", specFooA)])]

/-- Spec whose syntax normalizes to a key different from `specBeta`,
under the same command name. -/
def specAlpha : CommandSpec :=
  { string := "alpha", doc := "d\n", attrs := [],
    defun_file := "one/x.c", defun_line := 1, nodes := [0] }

/-- Second spec for the same command name with a different normalized
key. -/
def specBeta : CommandSpec :=
  { string := "beta", doc := "d\n", attrs := [],
    defun_file := "two/x.c", defun_line := 2, nodes := [0] }

/-- Database where one command name yields two registered entries. -/
def xrefDup : List (String × List (String × CommandSpec)) :=
  [("cmd", [("a/one", specAlpha), ("b/two", specBeta)])]

/-- Spec whose origin resolves to no daemon (a `lib/` file absent from
`daemon_flags`) and whose help text lacks the trailing newline. -/
def specDropWarn : CommandSpec :=
  { string := "show x", doc := "dd", attrs := [],
    defun_file := "lib/unknown.c", defun_line := 5, nodes := [0] }

/-- Spec whose origin resolves to no daemon, with well-formed help
text. -/
def specDropClean : CommandSpec :=
  { string := "show y", doc := "Yy\n", attrs := [],
    defun_file := "lib/unknown.c", defun_line := 7, nodes := [2] }

/-- Management-backend spec tagged both `yang` and `nosh`. -/
def specMgmtYangNosh : CommandSpec :=
  { string := "conf t", doc := "C\n", attrs := ["yang", "nosh"],
    defun_file := "mgmtd/foo.c", defun_line := 3, nodes := [1] }

/-- Management-backend spec tagged `yang` only. -/
def specMgmtYang : CommandSpec :=
  { string := "conf s", doc := "C\n", attrs := ["yang"],
    defun_file := "mgmtd/foo.c", defun_line := 4, nodes := [1] }

/-- Competing non-management spec for the same command name. -/
def specZebra : CommandSpec :=
  { string := "conf t", doc := "C\n", attrs := [],
    defun_file := "zebra/zebra_vty.c", defun_line := 9, nodes := [1] }

/-- Origin table with a management-backend variant and another origin. -/
def originsYangNosh : List (String × CommandSpec) :=
  [("zebra/zebra", specZebra), (mgmtname, specMgmtYangNosh)]

/-- Origin table with a `yang`-tagged management-backend variant. -/
def originsYang : List (String × CommandSpec) :=
  [("zebra/zebra", specZebra), (mgmtname, specMgmtYang)]

/-- Spec with empty help text. -/
def specEmptyDoc : CommandSpec :=
  { string := "q", doc := "", attrs := [],
    defun_file := "zebra/zebra_vty.c", defun_line := 1, nodes := [0] }

/-- Shared spec used by the determinism witness: two command names carry
specs with identical syntax, help and attributes in the same node. -/
def specBar : CommandSpec :=
  { string := "show bar $a", doc := "Bar doc\n", attrs := [],
    defun_file := "one/one_vty.c", defun_line := 11, nodes := [3] }

/-- Second spec of the determinism witness, equal to `specBar` in
syntax, help and attributes but from another origin. -/
def specBar2 : CommandSpec :=
  { string := "show bar $a", doc := "Bar doc\n", attrs := [],
    defun_file := "two/two_vty.c", defun_line := 12, nodes := [3] }

/-! Order lemmas for the code-point lexicographic comparison. -/

theorem charsLt_cons_cons (a b : Char) (as bs : List Char) :
    charsLt (a :: as) (b :: bs) =
      if a < b then true else if b < a then false else charsLt as bs := rfl

theorem charsLt_asymm : ∀ (a b : List Char), charsLt a b = true → charsLt b a = false
  | [], [], h => by simp [charsLt] at h
  | [], _ :: _, _ => rfl
  | _ :: _, [], h => by simp [charsLt] at h
  | a :: as, b :: bs, h => by
    rw [charsLt_cons_cons] at h ⊢
    by_cases hab : a < b
    · simp [lt_asymm hab, hab]
    · by_cases hba : b < a
      · simp [hab, hba] at h
      · simp only [hab, hba, if_false] at h ⊢
        exact charsLt_asymm as bs h

theorem charsLt_eq_of_not_lt :
    ∀ (a b : List Char), charsLt a b = false → charsLt b a = false → a = b
  | [], [], _, _ => rfl
  | [], _ :: _, h, _ => by simp [charsLt] at h
  | _ :: _, [], _, h => by simp [charsLt] at h
  | a :: as, b :: bs, h1, h2 => by
    rw [charsLt_cons_cons] at h1 h2
    by_cases hab : a < b
    · simp [hab] at h1
    · by_cases hba : b < a
      · simp [hba, hab] at h2
      · simp only [hab, hba, if_false] at h1 h2
        have hhead : a = b := le_antisymm (not_lt.mp hba) (not_lt.mp hab)
        have htail : as = bs := charsLt_eq_of_not_lt as bs h1 h2
        rw [hhead, htail]

theorem charsLt_trans :
    ∀ (a b c : List Char), charsLt a b = true → charsLt b c = true → charsLt a c = true
  | [], _ :: _, [], _, h2 => by simp [charsLt] at h2
  | [], [], _, h1, _ => by simp [charsLt] at h1
  | [], _ :: _, _ :: _, _, _ => rfl
  | _ :: _, [], _, h1, _ => by simp [charsLt] at h1
  | _ :: _, _ :: _, [], _, h2 => by simp [charsLt] at h2
  | a :: as, b :: bs, c :: cs, h1, h2 => by
    rw [charsLt_cons_cons] at h1 h2 ⊢
    by_cases hab : a < b
    · by_cases hbc : b < c
      · simp [lt_trans hab hbc]
      · by_cases hcb : c < b
        · simp [hbc, hcb] at h2
        · have : b = c := le_antisymm (not_lt.mp hcb) (not_lt.mp hbc)
          simp [this ▸ hab]
    · by_cases hba : b < a
      · simp [hab, hba] at h1
      · have hab' : a = b := le_antisymm (not_lt.mp hba) (not_lt.mp hab)
        subst hab'
        simp only [hab, if_neg, if_false] at h1 ⊢
        by_cases hac : a < c
        · simp [hac]
        · by_cases hca : c < a
          · simp [hac, hca] at h2
          · simp only [hac, hca, if_false] at h2 ⊢
            exact charsLt_trans as bs cs h1 h2

theorem string_eq_of_data {a b : String} (h : a.data = b.data) : a = b :=
  String.toList_inj.mp h

theorem strLe_total (a b : String) : strLe a b ∨ strLe b a := by
  unfold strLe strLtB
  by_cases h : charsLt b.data a.data = true
  · exact Or.inr (charsLt_asymm _ _ h)
  · exact Or.inl (Bool.not_eq_true _ ▸ h)

theorem strLe_trans' {a b c : String} (h1 : strLe a b) (h2 : strLe b c) : strLe a c := by
  unfold strLe strLtB at h1 h2 ⊢
  by_cases hca : charsLt c.data a.data = true
  · by_cases hbc : charsLt b.data c.data = true
    · have := charsLt_trans _ _ _ hbc hca
      rw [this] at h1; cases h1
    · have hbc' : b.data = c.data :=
        charsLt_eq_of_not_lt _ _ (Bool.not_eq_true _ ▸ hbc) h2
      rw [← hbc'] at hca
      rw [hca] at h1; cases h1
  · exact Bool.not_eq_true _ ▸ hca

theorem strLe_antisymm' {a b : String} (h1 : strLe a b) (h2 : strLe b a) : a = b :=
  string_eq_of_data (charsLt_eq_of_not_lt _ _ h2 h1)

instance : IsTotal String strLe := ⟨strLe_total⟩

instance : IsTrans String strLe := ⟨fun _ _ _ => strLe_trans'⟩

instance : IsAntisymm String strLe := ⟨fun _ _ => strLe_antisymm'⟩

theorem charsLt_irrefl (l : List Char) : charsLt l l = false := by
  by_cases h : charsLt l l = true
  · exact charsLt_asymm _ _ h
  · exact Bool.not_eq_true _ ▸ h

/-! Lemmas on the identifier tie-break of `merge`. -/

namespace CommandEntry

theorem strLtB_asymm {a b : String} (h : strLtB a b = true) : strLtB b a = false :=
  charsLt_asymm _ _ h

theorem strLtB_irrefl (a : String) : strLtB a a = false :=
  charsLt_irrefl _

theorem strLtB_eq_of_not_lt {a b : String} (h1 : strLtB a b = false)
    (h2 : strLtB b a = false) : a = b :=
  string_eq_of_data (charsLt_eq_of_not_lt _ _ h1 h2)

theorem mergeName_comm (a b : String) : mergeName a b = mergeName b a := by
  unfold mergeName
  rcases Nat.lt_trichotomy b.data.length a.data.length with h | h | h
  · rw [if_pos h, if_neg (Nat.lt_asymm h),
      if_neg (fun hc => absurd hc.1 (by omega))]
  · rw [if_neg (show ¬ b.data.length < a.data.length by omega),
      if_neg (show ¬ a.data.length < b.data.length by omega)]
    by_cases hlt : strLtB b a = true
    · rw [if_pos ⟨h, hlt⟩,
        if_neg (fun hc => by rw [strLtB_asymm hlt] at hc; exact Bool.false_ne_true hc.2)]
    · have hltf : strLtB b a = false := Bool.not_eq_true _ ▸ hlt
      rw [if_neg (fun hc => hlt hc.2)]
      by_cases hlt2 : strLtB a b = true
      · rw [if_pos ⟨h.symm, hlt2⟩]
      · have hltf2 : strLtB a b = false := Bool.not_eq_true _ ▸ hlt2
        rw [if_neg (fun hc => hlt2 hc.2)]
        exact strLtB_eq_of_not_lt hltf2 hltf
  · rw [if_neg (Nat.lt_asymm h), if_neg (fun hc => absurd hc.1 (by omega)), if_pos h]

theorem mergeName_eq_or (a b : String) : mergeName a b = a ∨ mergeName a b = b := by
  unfold mergeName
  by_cases h1 : b.data.length < a.data.length
  · rw [if_pos h1]; exact Or.inr rfl
  · rw [if_neg h1]
    by_cases h2 : b.data.length = a.data.length ∧ strLtB b a = true
    · rw [if_pos h2]; exact Or.inr rfl
    · rw [if_neg h2]; exact Or.inl rfl

theorem mergeName_keyLe_left (a b : String) : nameKeyLe (mergeName a b) a := by
  unfold mergeName
  by_cases h1 : b.data.length < a.data.length
  · rw [if_pos h1]; exact Or.inl h1
  · rw [if_neg h1]
    by_cases h2 : b.data.length = a.data.length ∧ strLtB b a = true
    · rw [if_pos h2]
      exact Or.inr ⟨h2.1, charsLt_asymm _ _ h2.2⟩
    · rw [if_neg h2]
      exact Or.inr ⟨rfl, charsLt_irrefl _⟩

theorem mergeName_keyLe_right (a b : String) : nameKeyLe (mergeName a b) b := by
  rw [mergeName_comm]
  exact mergeName_keyLe_left b a

end CommandEntry

/-! Lemmas on the stable sorts used at emission time. -/

theorem sortByKey_perm {α : Type} (key : α → String) (l : List α) :
    List.Perm (sortByKey key l) l :=
  List.perm_insertionSort _ l

theorem sortByKey_sorted {α : Type} (key : α → String) (l : List α) :
    (sortByKey key l).Sorted (fun a b => strLe (key a) (key b)) := by
  haveI : IsTotal α (fun a b => strLe (key a) (key b)) := ⟨fun a b => strLe_total _ _⟩
  haveI : IsTrans α (fun a b => strLe (key a) (key b)) := ⟨fun _ _ _ => strLe_trans'⟩
  exact List.sorted_insertionSort _ l

theorem sortByKey_id_eq_of_mem {s t : List String} (hs : s.Nodup) (ht : t.Nodup)
    (hmem : ∀ x, x ∈ s ↔ x ∈ t) : sortByKey id s = sortByKey id t := by
  haveI : IsAntisymm String (fun a b => strLe (id a) (id b)) :=
    ⟨fun _ _ => strLe_antisymm'⟩
  have hperm : List.Perm (sortByKey id s) (sortByKey id t) :=
    (sortByKey_perm id s).trans
      (((List.perm_ext_iff_of_nodup hs ht).mpr hmem).trans (sortByKey_perm id t).symm)
  exact List.eq_of_perm_of_sorted hperm (sortByKey_sorted id s) (sortByKey_sorted id t)

/-! Lemmas on the set semantics of the daemon expression lists. -/

theorem setUnion_cons (a : List String) (y : String) (ys : List String) :
    CommandEntry.setUnion a (y :: ys) =
      CommandEntry.setUnion (if y ∈ a then a else a ++ [y]) ys := rfl

theorem mem_setUnion {x : String} :
    ∀ (b a : List String), x ∈ CommandEntry.setUnion a b ↔ x ∈ a ∨ x ∈ b
  | [], a => by simp [CommandEntry.setUnion]
  | y :: ys, a => by
    rw [setUnion_cons]
    rw [mem_setUnion ys]
    by_cases hy : y ∈ a
    · simp only [if_pos hy]
      constructor
      · rintro (h | h)
        · exact Or.inl h
        · exact Or.inr (List.mem_cons_of_mem _ h)
      · rintro (h | h)
        · exact Or.inl h
        · rcases List.mem_cons.mp h with rfl | h
          · exact Or.inl hy
          · exact Or.inr h
    · simp only [if_neg hy, List.mem_append, List.mem_singleton, List.mem_cons]
      tauto

theorem nodup_setUnion :
    ∀ (b a : List String), a.Nodup → (CommandEntry.setUnion a b).Nodup
  | [], _, h => h
  | y :: ys, a, h => by
    rw [setUnion_cons]
    by_cases hy : y ∈ a
    · rw [if_pos hy]; exact nodup_setUnion ys a h
    · rw [if_neg hy]
      refine nodup_setUnion ys _ ?_
      simp [List.nodup_append, h, hy]

theorem toFinset_setUnion (a b : List String) :
    (CommandEntry.setUnion a b).toFinset = a.toFinset ∪ b.toFinset := by
  ext x
  simp [List.mem_toFinset, mem_setUnion]

theorem allTokens_fold (acc : List String) :
    ∀ (ds : List String) (x : String),
      x ∈ ds.foldl (fun acc d => CommandEntry.setUnion acc (splitBar d)) acc ↔
        x ∈ acc ∨ ∃ d ∈ ds, x ∈ splitBar d := by
  intro ds
  induction ds generalizing acc with
  | nil => intro x; simp
  | cons d rest ih =>
    intro x
    rw [List.foldl_cons, ih, mem_setUnion]
    simp only [List.mem_cons]
    constructor
    · rintro ((h | h) | ⟨d', hd', hx⟩)
      · exact Or.inl h
      · exact Or.inr ⟨d, Or.inl rfl, h⟩
      · exact Or.inr ⟨d', Or.inr hd', hx⟩
    · rintro (h | ⟨d', (rfl | hd'), hx⟩)
      · exact Or.inl (Or.inl h)
      · exact Or.inl (Or.inr hx)
      · exact Or.inr ⟨d', hd', hx⟩

theorem mem_allTokens {x : String} (ds : List String) :
    x ∈ allTokens ds ↔ ∃ d ∈ ds, x ∈ splitBar d := by
  rw [allTokens, allTokens_fold]
  simp

theorem nodup_allTokens_fold :
    ∀ (ds acc : List String), acc.Nodup →
      (ds.foldl (fun acc d => CommandEntry.setUnion acc (splitBar d)) acc).Nodup
  | [], _, h => h
  | _ :: rest, acc, h =>
    nodup_allTokens_fold rest _ (nodup_setUnion _ acc h)

theorem nodup_allTokens (ds : List String) : (allTokens ds).Nodup :=
  nodup_allTokens_fold ds [] List.nodup_nil

theorem tokens_setUnion_comm (d1 d2 : List String) :
    sortByKey id (allTokens (CommandEntry.setUnion d1 d2)) =
      sortByKey id (allTokens (CommandEntry.setUnion d2 d1)) := by
  refine sortByKey_id_eq_of_mem (nodup_allTokens _) (nodup_allTokens _) ?_
  intro x
  rw [mem_allTokens, mem_allTokens]
  constructor
  · rintro ⟨d, hd, hx⟩
    exact ⟨d, (mem_setUnion _ _).mpr ((mem_setUnion _ _).mp hd).symm, hx⟩
  · rintro ⟨d, hd, hx⟩
    exact ⟨d, (mem_setUnion _ _).mpr ((mem_setUnion _ _).mp hd).symm, hx⟩

/-! Unfolding lemmas for the load phase. -/

theorem mkEntry_ok_fields {origin name : String} {spec : CommandSpec} {e : CommandEntry}
    {ws : List Warning} (h : CommandEntry.mkEntry origin name spec = .ok (e, ws)) :
    e.origin = origin ∧ e.name = name ∧ e.spec = spec ∧ e.cmd = spec.string ∧
      e.cmd_normalized = normalize_cmd spec.string ∧
      e.hidden = decide ("hidden" ∈ spec.attrs) ∧
      e.doclines = splitlinesKeepends spec.doc ∧ e.registered = false := by
  unfold CommandEntry.mkEntry at h
  cases hgd : get_daemons origin name spec.defun_file with
  | error err => rw [hgd] at h; cases h
  | ok ds =>
    rw [hgd] at h
    cases hgl : (splitlinesKeepends spec.doc).getLast? with
    | none => simp only [hgl] at h; cases h
    | some lastLine =>
      simp only [hgl] at h
      obtain ⟨he, _⟩ := Prod.mk.injEq .. ▸ Except.ok.inj h
      subst he
      simp

theorem loadItem_yang {nn : List (Nat × String)} {st : LoadState} {name : String}
    {origins : List (String × CommandSpec)} {ms : CommandSpec}
    (h1 : assocLookup origins mgmtname = some ms) (h2 : "yang" ∈ ms.attrs) :
    loadItem nn st (name, origins) = CommandEntry.process nn st name mgmtname ms := by
  unfold loadItem
  simp only [h1]
  rw [if_pos h2]

theorem processOrigins_single (nn : List (Nat × String)) (st : LoadState)
    (nm o : String) (s : CommandSpec) :
    processOrigins nn st nm [(o, s)] = CommandEntry.process nn st nm o s := rfl

theorem loadItem_single (nn : List (Nat × String)) (st : LoadState)
    (nm o : String) (s : CommandSpec) :
    loadItem nn st (nm, [(o, s)]) = CommandEntry.process nn st nm o s := by
  unfold loadItem
  by_cases ho : o = mgmtname
  · subst ho
    have h1 : assocLookup [(mgmtname, s)] mgmtname = some s := by simp [assocLookup]
    simp only [h1]
    by_cases hyang : "yang" ∈ s.attrs
    · rw [if_pos hyang]
    · rw [if_neg hyang]
      exact processOrigins_single nn st nm mgmtname s
  · have h1 : assocLookup [(o, s)] mgmtname = none := by
      simp [assocLookup, ho]
    simp only [h1]
    exact processOrigins_single nn st nm o s

theorem process_drop_empty {nn : List (Nat × String)} {st : LoadState}
    {name origin : String} {spec : CommandSpec} {e : CommandEntry} {ws : List Warning}
    (hnosh : "nosh" ∉ spec.attrs) (hvty : origin ≠ "vtysh/vtysh")
    (hfab : origin ≠ "isisd/fabricd")
    (hmk : CommandEntry.mkEntry origin name spec = .ok (e, ws))
    (hempty : e.daemons = []) :
    CommandEntry.process nn st name origin spec = .ok { st with warns := st.warns ++ ws } := by
  unfold CommandEntry.process
  rw [if_neg hnosh, if_neg hvty]
  simp only [if_neg hfab, hmk]
  simp [hempty]

theorem process_go {nn : List (Nat × String)} {st : LoadState}
    {name origin : String} {spec : CommandSpec} {e : CommandEntry} {ws : List Warning}
    (hnosh : "nosh" ∉ spec.attrs) (hvty : origin ≠ "vtysh/vtysh")
    (hfab : origin ≠ "isisd/fabricd")
    (hmk : CommandEntry.mkEntry origin name spec = .ok (e, ws))
    (hne : e.daemons ≠ []) :
    CommandEntry.process nn st name origin spec =
      .ok (spec.nodes.foldl
        (fun s nodeid => processNode nn s st.pool.length e.cmd_normalized nodeid)
        { st with pool := st.pool ++ [e], warns := st.warns ++ ws }) := by
  unfold CommandEntry.process
  rw [if_neg hnosh, if_neg hvty]
  simp only [if_neg hfab, hmk]
  have hie : e.daemons.isEmpty = false := by
    cases hd : e.daemons with
    | nil => exact absurd hd hne
    | cons x xs => rfl
  simp [hie]

/-! Preservation of the registry invariant across the load phase. -/

theorem regInv_init : RegInv initState := by
  constructor
  · exact List.nodup_nil
  · intro i hi
    simp [initState] at hi

theorem regInv_registerId {st : LoadState} (h : RegInv st) (i : Nat) :
    RegInv (st.registerId i) := by
  unfold LoadState.registerId
  cases hg : st.pool.get? i with
  | none => exact h
  | some e =>
    by_cases hr : e.registered
    · simp only [hr, if_true]
      exact h
    · simp only [hr, if_false, Bool.false_eq_true]
    -- fallthrough handled below
      have hnotin : i ∉ st.all_defs := by
        intro hin
        obtain ⟨e2, hg2, hr2⟩ := h.2 i hin
        rw [hg] at hg2
        cases hg2
        exact hr (by simp [hr2])
      constructor
      · simp only []
        rw [List.nodup_append]
        exact ⟨h.1, List.nodup_singleton _, by simp [hnotin]⟩
      · intro j hj
        simp only [List.mem_append, List.mem_singleton] at hj
        rcases hj with hj | rfl
        · obtain ⟨e2, hg2, hr2⟩ := h.2 j hj
          refine ⟨e2, ?_, hr2⟩
          have hne : i ≠ j := fun hij => hnotin (hij ▸ hj)
          rw [List.get?_set_ne _ _ hne]
          exact hg2
        · refine ⟨{ e with registered := true }, ?_, rfl⟩
          rw [List.get?_set_eq]
          rw [hg]
          rfl

theorem regInv_setNodeTable {st : LoadState} (h : RegInv st) (nodeid : Nat)
    (tbl : List (String × Nat)) : RegInv (setNodeTable st nodeid tbl) := by
  unfold setNodeTable
  by_cases hc : (st.nodes.find? (fun p => p.1 = nodeid)).isSome
  · rw [if_pos hc]; exact h
  · rw [if_neg hc]; exact h

theorem regInv_processNode {st : LoadState} (h : RegInv st) (nn : List (Nat × String))
    (eid : Nat) (key : String) (nodeid : Nat) :
    RegInv (processNode nn st eid key nodeid) := by
  unfold processNode
  split
  · exact regInv_registerId (regInv_setNodeTable h nodeid _) eid
  · rename_i tid _
    split
    · rename_i target fresh hgt hge
      constructor
      · exact h.1
      · intro j hj
        obtain ⟨e2, hg2, hr2⟩ := h.2 j hj
        by_cases hjt : tid = j
        · subst hjt
          refine ⟨(CommandEntry.merge target fresh (nodenameOf nn nodeid)).1, ?_, ?_⟩
          · show (st.pool.set tid (CommandEntry.merge target fresh (nodenameOf nn nodeid)).1).get? tid = _
            rw [List.get?_set_eq, hgt]
            rfl
          · rw [hgt] at hg2
            cases hg2
            simpa [CommandEntry.merge] using hr2
        · refine ⟨e2, ?_, hr2⟩
          show (st.pool.set tid (CommandEntry.merge target fresh (nodenameOf nn nodeid)).1).get? j = some e2
          rw [List.get?_set_ne _ _ hjt]
          exact hg2
    · exact h

theorem regInv_pool_append {st : LoadState} (h : RegInv st) (e : CommandEntry)
    (ws : List Warning) :
    RegInv { st with pool := st.pool ++ [e], warns := ws } := by
  constructor
  · exact h.1
  · intro j hj
    obtain ⟨e2, hg2, hr2⟩ := h.2 j hj
    refine ⟨e2, ?_, hr2⟩
    have hlt : j < st.pool.length := (List.get?_eq_some.mp hg2).1
    rw [List.get?_append hlt]
    exact hg2

theorem regInv_foldl_processNode {nn : List (Nat × String)} (eid : Nat) (key : String) :
    ∀ (nodes : List Nat) (st : LoadState), RegInv st →
      RegInv (nodes.foldl (fun s nodeid => processNode nn s eid key nodeid) st)
  | [], _, h => h
  | _ :: rest, st, h =>
    regInv_foldl_processNode eid key rest _ (regInv_processNode h nn eid key _)

theorem regInv_process {nn : List (Nat × String)} {st st' : LoadState}
    {name origin : String} {spec : CommandSpec} (h : RegInv st)
    (hp : CommandEntry.process nn st name origin spec = .ok st') : RegInv st' := by
  unfold CommandEntry.process at hp
  by_cases h1 : "nosh" ∈ spec.attrs
  · rw [if_pos h1] at hp
    cases hp
    exact h
  · rw [if_neg h1] at hp
    by_cases h2 : origin = "vtysh/vtysh"
    · rw [if_pos h2] at hp
      cases hp
      exact h
    · rw [if_neg h2] at hp
      split at hp
      · cases hp
      · rename_i entry ws _
        split at hp
        · cases hp
          exact ⟨h.1, h.2⟩
        · cases hp
          exact regInv_foldl_processNode _ _ spec.nodes _
            (regInv_pool_append ⟨h.1, h.2⟩ entry _)

theorem regInv_processOrigins {nn : List (Nat × String)} {name : String} :
    ∀ (origins : List (String × CommandSpec)) (st st' : LoadState), RegInv st →
      processOrigins nn st name origins = .ok st' → RegInv st' := by
  intro origins
  induction origins with
  | nil =>
    intro st st' h hp
    cases hp
    exact h
  | cons p rest ih =>
    intro st st' h hp
    unfold processOrigins at hp
    rw [List.foldl_cons] at hp
    cases hpr : CommandEntry.process nn st name p.1 p.2 with
    | error err =>
      rw [show ((Except.ok st : Except PyError LoadState).bind
          (fun s => CommandEntry.process nn s name p.1 p.2)) =
            CommandEntry.process nn st name p.1 p.2 from rfl, hpr] at hp
      have : ∀ l : List (String × CommandSpec),
          (l.foldl (fun acc q => acc.bind
            (fun s => CommandEntry.process nn s name q.1 q.2))
            (Except.error err : Except PyError LoadState)) = .error err := by
        intro l
        induction l with
        | nil => rfl
        | cons q qs ihq => rw [List.foldl_cons]; exact ihq
      rw [this rest] at hp
      cases hp
    | ok st1 =>
      rw [show ((Except.ok st : Except PyError LoadState).bind
          (fun s => CommandEntry.process nn s name p.1 p.2)) =
            CommandEntry.process nn st name p.1 p.2 from rfl, hpr] at hp
      exact ih st1 st' (regInv_process h hpr) hp

theorem regInv_loadItem {nn : List (Nat × String)} {st st' : LoadState}
    {item : String × List (String × CommandSpec)} (h : RegInv st)
    (hp : loadItem nn st item = .ok st') : RegInv st' := by
  unfold loadItem at hp
  split at hp
  · split at hp
    · exact regInv_process h hp
    · exact regInv_processOrigins item.2 st st' h hp
  · exact regInv_processOrigins item.2 st st' h hp

theorem regInv_load {nn : List (Nat × String)} :
    ∀ (xref : List (String × List (String × CommandSpec))) (acc : LoadState)
      (st : LoadState), RegInv acc →
      (xref.foldl (fun a item => a.bind (fun s => loadItem nn s item))
        (Except.ok acc) = .ok st) → RegInv st := by
  intro xref
  induction xref with
  | nil =>
    intro acc st h hp
    cases hp
    exact h
  | cons item rest ih =>
    intro acc st h hp
    rw [List.foldl_cons] at hp
    cases hli : loadItem nn acc item with
    | error err =>
      rw [show ((Except.ok acc : Except PyError LoadState).bind
          (fun s => loadItem nn s item)) = loadItem nn acc item from rfl, hli] at hp
      have : ∀ l : List (String × List (String × CommandSpec)),
          (l.foldl (fun a it => a.bind (fun s => loadItem nn s it))
            (Except.error err : Except PyError LoadState)) = .error err := by
        intro l
        induction l with
        | nil => rfl
        | cons q qs ihq => rw [List.foldl_cons]; exact ihq
      rw [this rest] at hp
      cases hp
    | ok st1 =>
      rw [show ((Except.ok acc : Except PyError LoadState).bind
          (fun s => loadItem nn s item)) = loadItem nn acc item from rfl, hli] at hp
      exact ih st1 st (regInv_loadItem h hli) hp

/-! Symbolic evaluation of a two-entry load whose specs collide on one
normalized key in one CLI node. -/

theorem bind_ok (x : LoadState) (f : LoadState → Except PyError LoadState) :
    (Except.ok x : Except PyError LoadState).bind f = f x := rfl

theorem merge_fst (self other : CommandEntry) (nodename : String) :
    (CommandEntry.merge self other nodename).1 =
      { self with
        name := CommandEntry.mergeName self.name other.name
        daemons := CommandEntry.setUnion self.daemons other.daemons } := rfl

theorem load_two_collide {nn : List (Nat × String)} {nmA nmB oA oB : String}
    {sA sB : CommandSpec} {eA eB : CommandEntry} {wsA wsB : List Warning} {nd : Nat}
    (hnoshA : "nosh" ∉ sA.attrs) (hnoshB : "nosh" ∉ sB.attrs)
    (hvtyA : oA ≠ "vtysh/vtysh") (hvtyB : oB ≠ "vtysh/vtysh")
    (hfabA : oA ≠ "isisd/fabricd") (hfabB : oB ≠ "isisd/fabricd")
    (hmkA : CommandEntry.mkEntry oA nmA sA = .ok (eA, wsA))
    (hmkB : CommandEntry.mkEntry oB nmB sB = .ok (eB, wsB))
    (hdA : eA.daemons ≠ []) (hdB : eB.daemons ≠ [])
    (hndA : sA.nodes = [nd]) (hndB : sB.nodes = [nd])
    (hkey : eB.cmd_normalized = eA.cmd_normalized) :
    load nn [(nmA, [(oA, sA)]), (nmB, [(oB, sB)])] =
      .ok { pool := [(CommandEntry.merge { eA with registered := true } eB
                        (nodenameOf nn nd)).1, eB],
            nodes := [(nd, [(eA.cmd_normalized, 0)])],
            all_defs := [0],
            warns := (wsA ++ wsB) ++ (CommandEntry.merge { eA with registered := true } eB
                        (nodenameOf nn nd)).2 } := by
  obtain ⟨-, -, -, -, -, -, -, hregA⟩ := mkEntry_ok_fields hmkA
  unfold load
  rw [List.foldl_cons, List.foldl_cons, List.foldl_nil, bind_ok]
  rw [loadItem_single, process_go hnoshA hvtyA hfabA hmkA hdA, hndA]
  rw [List.foldl_cons, List.foldl_nil]
  have hstep1 : processNode nn
      { initState with pool := initState.pool ++ [eA], warns := initState.warns ++ wsA }
      initState.pool.length eA.cmd_normalized nd =
      { pool := [{ eA with registered := true }],
        nodes := [(nd, [(eA.cmd_normalized, 0)])],
        all_defs := [0],
        warns := wsA } := by
    simp [processNode, nodeTable, assocLookup, setNodeTable, LoadState.registerId,
      initState, hregA]
  rw [hstep1, bind_ok]
  rw [loadItem_single, process_go hnoshB hvtyB hfabB hmkB hdB, hndB]
  rw [List.foldl_cons, List.foldl_nil]
  simp [processNode, nodeTable, assocLookup, setNodeTable, hkey]

theorem sortByKey_singleton {α : Type} (key : α → String) (x : α) :
    sortByKey key [x] = [x] := rfl

theorem get_def_congr {a b : CommandEntry} (hn : a.name = b.name) (hc : a.cmd = b.cmd)
    (hh : a.hidden = b.hidden) (hd : a.doclines = b.doclines)
    (hdm : sortByKey id (allTokens a.daemons) = sortByKey id (allTokens b.daemons)) :
    a.get_def = b.get_def := by
  unfold CommandEntry.get_def
  rw [hn, hc, hh, hd, hdm]

/-- C1 (amended): emission order is fixed by the sort keys, but the raw
syntax, help text and hidden flag of a merged record are taken from the
first spec processed, so byte-identical output under reordering holds
when the colliding specs agree on those fields.  For a database of two
command names whose single-origin specs share raw syntax, help text,
hidden attribute and CLI node, swapping the presentation order yields
byte-identical output: the surviving identifier is the (length,
lexicographic) minimum and the daemon tokens are emitted as a sorted
union, both order-independent. -/
theorem c1_output_deterministic (nn : List (Nat × String)) (nm1 nm2 o1 o2 : String)
    (s1 s2 : CommandSpec) (e1 e2 : CommandEntry) (ws1 ws2 : List Warning) (nd : Nat)
    (hstr : s1.string = s2.string) (hdoc : s1.doc = s2.doc)
    (hhid : "hidden" ∈ s1.attrs ↔ "hidden" ∈ s2.attrs)
    (hnosh1 : "nosh" ∉ s1.attrs) (hnosh2 : "nosh" ∉ s2.attrs)
    (hvty1 : o1 ≠ "vtysh/vtysh") (hvty2 : o2 ≠ "vtysh/vtysh")
    (hfab1 : o1 ≠ "isisd/fabricd") (hfab2 : o2 ≠ "isisd/fabricd")
    (hmk1 : CommandEntry.mkEntry o1 nm1 s1 = .ok (e1, ws1))
    (hmk2 : CommandEntry.mkEntry o2 nm2 s2 = .ok (e2, ws2))
    (hd1 : e1.daemons ≠ []) (hd2 : e2.daemons ≠ [])
    (hnd1 : s1.nodes = [nd]) (hnd2 : s2.nodes = [nd]) :
    runOutput nn [(nm1, [(o1, s1)]), (nm2, [(o2, s2)])] =
      runOutput nn [(nm2, [(o2, s2)]), (nm1, [(o1, s1)])] := by
  obtain ⟨-, hnm1, -, hcmd1, hnorm1, hhid1, hdl1, -⟩ := mkEntry_ok_fields hmk1
  obtain ⟨-, hnm2, -, hcmd2, hnorm2, hhid2, hdl2, -⟩ := mkEntry_ok_fields hmk2
  have hkey21 : e2.cmd_normalized = e1.cmd_normalized := by
    rw [hnorm1, hnorm2, hstr]
  have hkey12 : e1.cmd_normalized = e2.cmd_normalized := hkey21.symm
  unfold runOutput
  rw [load_two_collide hnosh1 hnosh2 hvty1 hvty2 hfab1 hfab2 hmk1 hmk2 hd1 hd2
      hnd1 hnd2 hkey21,
    load_two_collide hnosh2 hnosh1 hvty2 hvty1 hfab2 hfab1 hmk2 hmk1 hd2 hd1
      hnd2 hnd1 hkey12]
  simp only [Except.map]
  have hname : (CommandEntry.merge { e1 with registered := true } e2
        (nodenameOf nn nd)).1.name =
      (CommandEntry.merge { e2 with registered := true } e1 (nodenameOf nn nd)).1.name := by
    rw [merge_fst, merge_fst]
    show CommandEntry.mergeName e1.name e2.name = CommandEntry.mergeName e2.name e1.name
    exact CommandEntry.mergeName_comm _ _
  have hgetdef : (CommandEntry.merge { e1 with registered := true } e2
        (nodenameOf nn nd)).1.get_def =
      (CommandEntry.merge { e2 with registered := true } e1 (nodenameOf nn nd)).1.get_def := by
    apply get_def_congr
    · exact hname
    · rw [merge_fst, merge_fst]
      show e1.cmd = e2.cmd
      rw [hcmd1, hcmd2, hstr]
    · rw [merge_fst, merge_fst]
      show e1.hidden = e2.hidden
      rw [hhid1, hhid2]
      exact decide_eq_decide.mpr hhid
    · rw [merge_fst, merge_fst]
      show e1.doclines = e2.doclines
      rw [hdl1, hdl2, hdoc]
    · rw [merge_fst, merge_fst]
      show sortByKey id (allTokens (CommandEntry.setUnion e1.daemons e2.daemons)) =
        sortByKey id (allTokens (CommandEntry.setUnion e2.daemons e1.daemons))
      exact tokens_setUnion_comm _ _
  have hdefs : output_defs
      { pool := [(CommandEntry.merge { e1 with registered := true } e2
            (nodenameOf nn nd)).1, e2],
        nodes := [(nd, [(e1.cmd_normalized, 0)])],
        all_defs := [0],
        warns := (ws1 ++ ws2) ++ (CommandEntry.merge { e1 with registered := true } e2
            (nodenameOf nn nd)).2 } =
      output_defs
      { pool := [(CommandEntry.merge { e2 with registered := true } e1
            (nodenameOf nn nd)).1, e1],
        nodes := [(nd, [(e2.cmd_normalized, 0)])],
        all_defs := [0],
        warns := (ws2 ++ ws1) ++ (CommandEntry.merge { e2 with registered := true } e1
            (nodenameOf nn nd)).2 } := by
    unfold output_defs defsEntries
    simp only [List.filterMap_cons, List.filterMap_nil, List.get?_cons_zero, Option.some.injEq]
    rw [sortByKey_singleton, sortByKey_singleton]
    simp only [List.map_cons, List.map_nil]
    rw [hgetdef]
  have hinst : output_install nn
      { pool := [(CommandEntry.merge { e1 with registered := true } e2
            (nodenameOf nn nd)).1, e2],
        nodes := [(nd, [(e1.cmd_normalized, 0)])],
        all_defs := [0],
        warns := (ws1 ++ ws2) ++ (CommandEntry.merge { e1 with registered := true } e2
            (nodenameOf nn nd)).2 } =
      output_install nn
      { pool := [(CommandEntry.merge { e2 with registered := true } e1
            (nodenameOf nn nd)).1, e1],
        nodes := [(nd, [(e2.cmd_normalized, 0)])],
        all_defs := [0],
        warns := (ws2 ++ ws1) ++ (CommandEntry.merge { e2 with registered := true } e1
            (nodenameOf nn nd)).2 } := by
    unfold output_install
    simp only [List.map_cons, List.map_nil, sortByKey_singleton, List.filterMap_cons,
      List.filterMap_nil, List.get?_cons_zero]
    rw [hname]
  rw [hdefs, hinst]

/-! Settling the claims. -/

set_option maxRecDepth 40000 in
/-- C1 (counterexample): two origins colliding on the same normalized key
with different raw syntax strings make the output depend on presentation
order — the merged record keeps the first-seen raw syntax, so swapping the
origins changes the emitted bytes. -/
theorem c1_counterexample : runOutput [] xrefFoo ≠ runOutput [] xrefFooSwapped := by
  decide

set_option maxRecDepth 40000 in
/-- C1 (witness): the determinism theorem applied to a concrete database of
two command names with agreeing specs. -/
theorem c1_output_deterministic_witness :
    runOutput [] [("show_bar_x", [("one/one", specBar)]), ("sb", [("two/two", specBar2)])] =
      runOutput [] [("sb", [("two/two", specBar2)]), ("show_bar_x", [("one/one", specBar)])] :=
  c1_output_deterministic [] "show_bar_x" "sb" "one/one" "two/two" specBar specBar2
    (entryOf (CommandEntry.mkEntry "one/one" "show_bar_x" specBar))
    (entryOf (CommandEntry.mkEntry "two/two" "sb" specBar2)) [] [] 3
    rfl rfl (by decide) (by decide) (by decide) (by decide) (by decide)
    (by decide) (by decide) (by decide) (by decide) (by decide) (by decide)
    rfl rfl

/-- C2: when the management-backend origin publishes a `yang`-tagged spec
for a command name, the load step for that name processes only that spec;
no other origin of the name is processed, so none contributes definition
records or installation bindings. -/
theorem c2_mgmt_yang_override (nn : List (Nat × String)) (st : LoadState)
    (name : String) (origins : List (String × CommandSpec)) (ms : CommandSpec)
    (h1 : assocLookup origins mgmtname = some ms) (h2 : "yang" ∈ ms.attrs) :
    loadItem nn st (name, origins) = CommandEntry.process nn st name mgmtname ms :=
  loadItem_yang h1 h2

/-- C2 (witness): the override evaluated on a concrete origin table. -/
theorem c2_mgmt_yang_override_witness :
    assocLookup originsYang mgmtname = some specMgmtYang ∧
      "yang" ∈ specMgmtYang.attrs ∧
      loadItem [] initState ("conf_s", originsYang) =
        CommandEntry.process [] initState "conf_s" mgmtname specMgmtYang :=
  ⟨by decide, by decide,
    c2_mgmt_yang_override [] initState "conf_s" originsYang specMgmtYang
      (by decide) (by decide)⟩

/-- C3 (counterexample): the claimed example keys are wrong on both
counts — the placeholder regex only removes dollar-tokens starting with a
lowercase letter, so the uppercase `$A` survives, and removal happens
after whitespace collapsing, leaving two adjacent spaces behind a removed
token; neither string normalizes to the claimed key. -/
theorem c3_counterexample :
    normalize_cmd "foo $A bar" ≠ "foo bar" ∧
      normalize_cmd "foo  $xyz  bar" ≠ "foo bar" := by
  decide

/-- C3 (amended): the key normalization trims, collapses whitespace runs,
then deletes placeholders of a dollar sign followed by a lowercase-letter
identifier; `"foo $A bar"` is unchanged (uppercase placeholder kept) and
`"foo  $xyz  bar"` normalizes to `"foo  bar"` with two spaces, as does
`"foo $a bar"`. -/
theorem c3_normalize_examples :
    normalize_cmd "foo $A bar" = "foo $A bar" ∧
      normalize_cmd "foo  $xyz  bar" = "foo  bar" ∧
      normalize_cmd "foo $a bar" = "foo  bar" ∧
      normalize_cmd "   foo \t  bar  " = "foo bar" := by
  decide

theorem listIsPrefixOf_cons_ne {a b : Char} (h : ¬ a = b) (as bs : List Char) :
    listIsPrefixOf (a :: as) (b :: bs) = false := by
  simp [listIsPrefixOf, h]

theorem not_mismatch_of_head {msg : String} (hm : msg.data.head? ≠ some 'c') :
    listIsPrefixOf "command definition mismatch".data msg.data = false := by
  rw [show "command definition mismatch".data =
    'c' :: "ommand definition mismatch".data from rfl]
  cases hd : msg.data with
  | nil => rfl
  | cons b bs =>
    refine listIsPrefixOf_cons_ne ?_ _ _
    intro hcb
    exact hm (by rw [hd, ← hcb]; rfl)

/-- C4 (counterexample): two specs colliding on the same normalized key
with different raw syntax merge without any diagnostic: the mismatch
branch of `merge` tests the normalized strings, which are equal for every
collision. -/
theorem c4_counterexample :
    (entryOf (CommandEntry.mkEntry "one/one" "show_foo" specFooA)).cmd_normalized =
        (entryOf (CommandEntry.mkEntry "two/two" "show_foo" specFooB)).cmd_normalized ∧
      (entryOf (CommandEntry.mkEntry "one/one" "show_foo" specFooA)).cmd ≠
        (entryOf (CommandEntry.mkEntry "two/two" "show_foo" specFooB)).cmd ∧
      (CommandEntry.merge (entryOf (CommandEntry.mkEntry "one/one" "show_foo" specFooA))
        (entryOf (CommandEntry.mkEntry "two/two" "show_foo" specFooB)) "RMAP_NODE").2 = [] := by
  decide

/-- C4 (amended): the "command definition mismatch" diagnostic is emitted
only when the two normalized commands differ; for entries agreeing on the
normalized key — the only way a collision arises — merge never emits a
diagnostic whose message starts with "command definition mismatch",
whatever the raw syntax strings are. -/
theorem c4_no_mismatch_diag (e1 e2 : CommandEntry) (nodename : String)
    (h : e1.cmd_normalized = e2.cmd_normalized) :
    ∀ w ∈ (CommandEntry.merge e1 e2 nodename).2,
      listIsPrefixOf "command definition mismatch".data w.msg.data = false := by
  intro w hw
  unfold CommandEntry.merge at hw
  rw [if_neg (fun hc => hc h)] at hw
  by_cases hd : e1.spec.doc = e2.spec.doc
  · rw [if_neg (fun hc => hc hd)] at hw
    by_cases hh : e1.hidden = e2.hidden
    · rw [if_neg (fun hc => hc hh)] at hw
      simp at hw
    · rw [if_pos hh] at hw
      simp only [List.nil_append, List.mem_cons, List.not_mem_nil, or_false] at hw
      rcases hw with rfl | rfl
      · exact not_mismatch_of_head (fun hcon => absurd (Option.some.inj hcon) (by decide))
      · exact not_mismatch_of_head (fun hcon => absurd (Option.some.inj hcon) (by decide))
  · rw [if_pos hd] at hw
    by_cases hh : e1.hidden = e2.hidden
    · rw [if_neg (fun hc => hc hh)] at hw
      simp only [List.nil_append, List.append_nil, List.mem_cons, List.not_mem_nil,
        or_false] at hw
      rcases hw with rfl | rfl
      · exact not_mismatch_of_head (fun hcon => absurd (Option.some.inj hcon) (by decide))
      · exact not_mismatch_of_head (fun hcon => absurd (Option.some.inj hcon) (by decide))
    · rw [if_pos hh] at hw
      simp only [List.nil_append, List.mem_append, List.mem_cons, List.not_mem_nil,
        or_false] at hw
      rcases hw with (rfl | rfl) | (rfl | rfl)
      · exact not_mismatch_of_head (fun hcon => absurd (Option.some.inj hcon) (by decide))
      · exact not_mismatch_of_head (fun hcon => absurd (Option.some.inj hcon) (by decide))
      · exact not_mismatch_of_head (fun hcon => absurd (Option.some.inj hcon) (by decide))
      · exact not_mismatch_of_head (fun hcon => absurd (Option.some.inj hcon) (by decide))

/-- C4 (witness): the amended statement applied to the concrete colliding
pair. -/
theorem c4_no_mismatch_diag_witness :
    (entryOf (CommandEntry.mkEntry "one/one" "show_foo" specFooA)).cmd_normalized =
        (entryOf (CommandEntry.mkEntry "two/two" "show_foo" specFooB)).cmd_normalized ∧
      ∀ w ∈ (CommandEntry.merge (entryOf (CommandEntry.mkEntry "one/one" "show_foo" specFooA))
          (entryOf (CommandEntry.mkEntry "two/two" "show_foo" specFooB)) "RMAP_NODE").2,
        listIsPrefixOf "command definition mismatch".data w.msg.data = false :=
  ⟨by decide, c4_no_mismatch_diag _ _ "RMAP_NODE" (by decide)⟩

/-- C5: merging two colliding specs unions their daemon-flag-expression
sets — the survivor owns exactly the union — and registration never
changes any entry's daemon set; no operation removes a daemon
expression. -/
theorem c5_daemon_union (e1 e2 : CommandEntry) (nodename : String)
    (st : LoadState) (i : Nat) :
    (CommandEntry.merge e1 e2 nodename).1.daemons.toFinset =
        e1.daemons.toFinset ∪ e2.daemons.toFinset ∧
      (st.registerId i).pool.map CommandEntry.daemons =
        st.pool.map CommandEntry.daemons := by
  constructor
  · rw [merge_fst]
    show (CommandEntry.setUnion e1.daemons e2.daemons).toFinset = _
    exact toFinset_setUnion _ _
  · unfold LoadState.registerId
    split
    · rfl
    · rename_i e hg
      split
      · rfl
      · show (st.pool.set i { e with registered := true }).map CommandEntry.daemons =
          st.pool.map CommandEntry.daemons
        rw [List.map_set]
        apply List.ext
        intro n
        rw [List.get?_set]
        split
        · rename_i hin
          subst hin
          rw [List.get?_map, hg]
          rfl
        · rfl

/-- C6: the canonical identifier chosen by merge is order-independent:
merging in either order yields the same name, which is one of the two
input names and sorts no later than either under the
(length, lexicographic) key. -/
theorem c6_identifier_commutative (e1 e2 : CommandEntry) (nodename : String) :
    (CommandEntry.merge e1 e2 nodename).1.name =
        (CommandEntry.merge e2 e1 nodename).1.name ∧
      ((CommandEntry.merge e1 e2 nodename).1.name = e1.name ∨
        (CommandEntry.merge e1 e2 nodename).1.name = e2.name) ∧
      CommandEntry.nameKeyLe (CommandEntry.merge e1 e2 nodename).1.name e1.name ∧
      CommandEntry.nameKeyLe (CommandEntry.merge e1 e2 nodename).1.name e2.name := by
  rw [merge_fst, merge_fst]
  refine ⟨?_, ?_, ?_, ?_⟩
  · show CommandEntry.mergeName e1.name e2.name = CommandEntry.mergeName e2.name e1.name
    exact CommandEntry.mergeName_comm _ _
  · show CommandEntry.mergeName e1.name e2.name = e1.name ∨
      CommandEntry.mergeName e1.name e2.name = e2.name
    exact CommandEntry.mergeName_eq_or _ _
  · show CommandEntry.nameKeyLe (CommandEntry.mergeName e1.name e2.name) e1.name
    exact CommandEntry.mergeName_keyLe_left _ _
  · show CommandEntry.nameKeyLe (CommandEntry.mergeName e1.name e2.name) e2.name
    exact CommandEntry.mergeName_keyLe_right _ _

/-- C7 (counterexample): a command whose only origin resolves to an empty
daemon set can still emit a diagnostic — the constructor warns about a
help text lacking its trailing newline before the empty-set drop
happens. -/
theorem c7_counterexample :
    (CommandEntry.process [] initState "show_x" "mgmtd/mgmtd" specDropWarn).map
      LoadState.warns ≠ .ok [] := by
  decide

/-- C7 (amended): a spec whose daemon resolution is empty is dropped with
no definition record, no installation binding and no registration, and
the drop itself emits no diagnostic; the only diagnostics are the ones
already emitted by entry construction (the docstring newline warning),
which are appended to the state. -/
theorem c7_empty_daemons_drop (nn : List (Nat × String)) (st : LoadState)
    (name origin : String) (spec : CommandSpec) (e : CommandEntry) (ws : List Warning)
    (hnosh : "nosh" ∉ spec.attrs) (hvty : origin ≠ "vtysh/vtysh")
    (hfab : origin ≠ "isisd/fabricd")
    (hmk : CommandEntry.mkEntry origin name spec = .ok (e, ws))
    (hempty : e.daemons = []) :
    CommandEntry.process nn st name origin spec =
      .ok { st with warns := st.warns ++ ws } :=
  process_drop_empty hnosh hvty hfab hmk hempty

/-- C7 (witness): the drop evaluated on a concrete empty-daemon spec with
well-formed help text, leaving the state unchanged but for the (empty)
constructor warnings. -/
theorem c7_empty_daemons_drop_witness :
    CommandEntry.process [] initState "show_y" "mgmtd/mgmtd" specDropClean =
      .ok { initState with warns := initState.warns ++ [] } :=
  c7_empty_daemons_drop [] initState "show_y" "mgmtd/mgmtd" specDropClean
    (entryOf (CommandEntry.mkEntry "mgmtd/mgmtd" "show_y" specDropClean)) []
    (by decide) (by decide) (by decide) rfl rfl

/-- C8 (counterexample): the canonical identifiers in the global registry
need not be pairwise distinct — one command name defined by two origins
with different normalized syntax registers two entries carrying the same
identifier, so sorting by identifier has ties. -/
theorem c8_counterexample : ¬ (registryNames (load [] xrefDup)).Nodup := by
  decide

/-- C8 (amended): after a successful load the global registry holds each
entry reference exactly once — the registered indices are pairwise
distinct — though distinct entries may share a canonical identifier. -/
theorem c8_registry_nodup (nn : List (Nat × String))
    (xref : List (String × List (String × CommandSpec))) (st : LoadState)
    (h : load nn xref = .ok st) : st.all_defs.Nodup :=
  (regInv_load xref initState st regInv_init h).1

/-- C8 (witness): registry distinctness evaluated on the concrete
database that shows identifier ties. -/
theorem c8_registry_nodup_witness :
    load [] xrefDup = .ok (stateOf (load [] xrefDup)) ∧
      (stateOf (load [] xrefDup)).all_defs.Nodup :=
  ⟨by decide, c8_registry_nodup [] xrefDup _ (by decide)⟩

/-- C9: constructing an entry from a spec with empty help text raises an
uncaught index error (the constructor reads the last line of the empty
split), instead of emitting a diagnostic or completing. -/
theorem c9_empty_doc_raises (origin name : String) (spec : CommandSpec)
    (h : spec.doc = "") :
    CommandEntry.mkEntry origin name spec = .error .indexError := by
  unfold CommandEntry.mkEntry
  rw [h]
  cases hgd : get_daemons origin name spec.defun_file with
  | error err => cases err; rfl
  | ok ds => rfl

/-- C9 (witness): the exception evaluated on a concrete empty-doc spec. -/
theorem c9_empty_doc_raises_witness :
    specEmptyDoc.doc = "" ∧
      CommandEntry.mkEntry "zebra/zebra" "q" specEmptyDoc = .error .indexError :=
  ⟨rfl, c9_empty_doc_raises "zebra/zebra" "q" specEmptyDoc rfl⟩

/-- C10: the management-backend override runs before the no-shell and
daemon-ownership checks: when the management spec of a command name is
tagged `yang` and additionally tagged `nosh` or resolving to an empty
daemon set, the load step for that name leaves pool, node tables and
registry untouched — the other origins were discarded by the override and
the management spec itself is then dropped. -/
theorem c10_override_before_checks (nn : List (Nat × String)) (st : LoadState)
    (name : String) (origins : List (String × CommandSpec)) (ms : CommandSpec)
    (h1 : assocLookup origins mgmtname = some ms) (h2 : "yang" ∈ ms.attrs)
    (h3 : "nosh" ∈ ms.attrs ∨ ∃ e ws,
      CommandEntry.mkEntry mgmtname name ms = .ok (e, ws) ∧ e.daemons = []) :
    ∃ st', loadItem nn st (name, origins) = .ok st' ∧ st'.pool = st.pool ∧
      st'.nodes = st.nodes ∧ st'.all_defs = st.all_defs := by
  rw [loadItem_yang h1 h2]
  by_cases hnosh : "nosh" ∈ ms.attrs
  · refine ⟨st, ?_, rfl, rfl, rfl⟩
    unfold CommandEntry.process
    rw [if_pos hnosh]
  · rcases h3 with hn | ⟨e, ws, hmk, hemp⟩
    · exact absurd hn hnosh
    · refine ⟨{ st with warns := st.warns ++ ws }, ?_, rfl, rfl, rfl⟩
      exact process_drop_empty hnosh (by decide) (by decide) hmk hemp

/-- C10 (witness): the override-then-drop evaluated on a concrete origin
table whose management spec is tagged both `yang` and `nosh`. -/
theorem c10_override_before_checks_witness :
    ∃ st', loadItem [] initState ("conf_t", originsYangNosh) = .ok st' ∧
      st'.pool = initState.pool ∧ st'.nodes = initState.nodes ∧
      st'.all_defs = initState.all_defs :=
  c10_override_before_checks [] initState "conf_t" originsYangNosh specMgmtYangNosh
    (by decide) (by decide) (Or.inl (by decide))

end Xref2Vtysh